import Mathlib

/-!
Shallow embedding of the mini format-string engine of `baidu_fanyi`
(`src/lib.rs`, module `mini_fmt`) together with the output formatter
`format_out` of `src/main.rs`, and proofs of the specification claims.

Rust panics (out-of-bounds slice indexing) are modelled by `Option`
(`none` = panic aborts the render); the `Result<_, String>` returned by
`Fmtter::build` is modelled by `Except BuildErr _` where each `BuildErr`
constructor stands for one distinct `return Err(format!(...))` site and
carries its payload.
-/

namespace MiniFmt

/-- `FmtStyle` of `lib.rs`: `Str` = Display, `Repr` = Debug (`{:?}`),
`ERepr` = expanded Debug (`{:#?}`). -/
inductive FmtStyle where
  | str
  | repr
  | erepr
deriving DecidableEq

/-- A value of some Rust type `S : Display + Debug`, represented by the
three textual forms the trait bounds make available: its Display text,
its `{:?}` text and its `{:#?}` text. -/
structure FmtValue where
  display : String
  debug : String
  edebug : String
deriving DecidableEq

/-- `FmtStyle::fmt_str`: render one value according to the style. -/
def FmtStyle.fmtStr : FmtStyle → FmtValue → String
  | .str, v => v.display
  | .repr, v => v.debug
  | .erepr, v => v.edebug

/-- `FmtType` of `lib.rs`: one compiled instruction.
`const` = `Const(String)`, `value` = `Value { style }` (auto-increment
cursor), `indexValue` = `IndexValue { id, style }` (fixed index). -/
inductive FmtType where
  | const (s : String)
  | value (style : FmtStyle)
  | indexValue (id : Nat) (style : FmtStyle)
deriving DecidableEq

/-- `FmtType::fmt_str(&self, idx: &mut usize, args: &[S])`: renders one
instruction, returning the produced text and the updated cursor, or
`none` where the Rust code would panic on an out-of-bounds index. -/
def FmtType.fmtStr (t : FmtType) (idx : Nat) (args : List FmtValue) :
    Option (String × Nat) :=
  match t with
  | .const s => some (s, idx)
  | .value style =>
    match args.get? idx with
    | some v => some (style.fmtStr v, idx + 1)
    | none => none
  | .indexValue id style =>
    match args.get? id with
    | some v => some (style.fmtStr v, idx)
    | none => none

/-- `Fmtter` of `lib.rs`: a compiled template, an ordered instruction
sequence. -/
structure Fmtter where
  args : List FmtType
deriving DecidableEq

/-- The loop of `Fmtter::fmt_str`: walk the instructions threading the
cursor `idx` and the accumulated output `res`. -/
def fmtStrGo (strs : List FmtValue) :
    List FmtType → Nat → String → Option String
  | [], _, res => some res
  | i :: rest, idx, res =>
    match i.fmtStr idx strs with
    | some (s, idx') => fmtStrGo strs rest idx' (res ++ s)
    | none => none

/-- `Fmtter::fmt_str(&self, strs: &[S])`: render against an argument
list, cursor initialized to 0, empty output buffer. -/
def Fmtter.fmtStr (f : Fmtter) (strs : List FmtValue) : Option String :=
  fmtStrGo strs f.args 0 ""

/-- The compile errors of `Fmtter::build`, one constructor per
`return Err(...)` site:
`seqInEnd` = `"sequence in fmtter end"`,
`unknownSequence c` = `format!("unknown sequence: {:?}", x)`,
`toCharFailed v` = `format!("{:x} to char failed", val)`,
`buildHexError s` = `format!("build hex error: {:?}", hex)`. -/
inductive BuildErr where
  | seqInEnd
  | unknownSequence (c : Char)
  | toCharFailed (val : Nat)
  | buildHexError (hex : String)
deriving DecidableEq

/-- `style_pat!` of `Fmtter::build`: map a style character to a style,
or fail with the unknown-sequence error. -/
def stylePat (c : Char) : Except BuildErr FmtStyle :=
  match c with
  | 's' => .ok .str
  | 'r' => .ok .repr
  | 'R' => .ok .erepr
  | x => .error (.unknownSequence x)

/-- `add!` of `Fmtter::build`: flush the pending literal buffer (only
when non-empty) as a `Const` instruction, then append the instruction. -/
def addInstr (args : List FmtType) (lastVal : List Char) (v : FmtType) :
    List FmtType :=
  if lastVal.length != 0 then args ++ [.const (String.mk lastVal), v]
  else args ++ [v]

/-- `char::to_digit(16)`: the hex value of one character, if any. -/
def hexDigitVal (c : Char) : Option Nat :=
  if '0' ≤ c ∧ c ≤ '9' then some (c.toNat - '0'.toNat)
  else if 'a' ≤ c ∧ c ≤ 'f' then some (c.toNat - 'a'.toNat + 10)
  else if 'A' ≤ c ∧ c ≤ 'F' then some (c.toNat - 'A'.toNat + 10)
  else none

/-- Digit loop of `uN::from_str_radix(s, 16)`: fold the digits left to
right with checked arithmetic against the integer type's maximum
(`max` = 255 for `u8`, 65535 for `u16`, 4294967295 for `u32`). -/
def parseHexDigits (max : Nat) : List Char → Nat → Option Nat
  | [], acc => some acc
  | c :: cs, acc =>
    match hexDigitVal c with
    | some d =>
      if acc * 16 + d ≤ max then parseHexDigits max cs (acc * 16 + d)
      else none
    | none => none

/-- `uN::from_str_radix(s, 16)` for an unsigned type of maximum `max`:
empty input fails; a single leading `+` is allowed (but not alone);
every remaining character must be a hex digit; checked overflow. -/
def fromStrRadix16 (s : List Char) (max : Nat) : Option Nat :=
  match s with
  | [] => none
  | '+' :: rest => if rest.isEmpty then none else parseHexDigits max rest 0
  | _ => parseHexDigits max s 0

/-- `char::from_u32`: valid code points are below the surrogate range
or between 0xE000 and 0x10FFFF. -/
def isValidCodePoint (n : Nat) : Bool :=
  n < 0xd800 || (0xe000 ≤ n && n < 0x110000)

/-- `char::from_u32` as a partial function. -/
def charFromU32 (n : Nat) : Option Char :=
  if isValidCodePoint n then some (Char.ofNat n) else none

/-- Body of the `add_hex!` macro after the fixed-length run `cs` has
been extracted: build the hex string, radix-16 parse it against the
type maximum `max`, convert to a char and push it onto the pending
literal buffer; parse failure is the build-hex error naming the run,
conversion failure is the to-char-failed error naming the value. -/
def addHexCore (cs : List Char) (max : Nat) (lastVal : List Char) :
    Except BuildErr (List Char) :=
  let hex := String.mk cs
  match fromStrRadix16 cs max with
  | some val =>
    match charFromU32 val with
    | some x => .ok (lastVal ++ [x])
    | none => .error (.toCharFailed val)
  | none => .error (.buildHexError hex)

/-- The effect of one iteration of the scanning loop of
`Fmtter::build` on the loop state: `cont lastVal used` updates the
pending literal buffer and advances the character iterator past `used`
further characters; `emit v used` flushes the buffer, appends the
instruction `v` (the `add!` macro) and advances likewise; `err e`
returns the compile error. -/
inductive ScanStep where
  | cont (lastVal : List Char) (used : Nat)
  | emit (v : FmtType) (used : Nat)
  | err (e : BuildErr)
deriving DecidableEq

/-- The body of the `while let Some(c) = chars.next()` loop of
`Fmtter::build`, for current character `c`, remaining characters
`rest` and pending literal buffer `lastVal` (the Rust `last_val`).
Each `chars.next()` hitting end of input is the truncated-sequence
error (`res_seq_in_end!`); the branch order is that of the Rust
`match`: index digits `0`-`9`, then `%`, `n`, `N`, `t`, `e`, the hex
escapes `x`/`u`/`U` extracting exactly 2 / 4 / 6 characters
(`u8` / `u16` / `u32`), and finally a bare style character. -/
def scanStep (c : Char) (rest : List Char) (lastVal : List Char) :
    ScanStep :=
  if c = '%' then
    match rest with
    | [] => .err .seqInEnd
    | nc :: rest' =>
      if '0' ≤ nc ∧ nc ≤ '9' then
        match rest' with
        | [] => .err .seqInEnd
        | sc :: _ =>
          match stylePat sc with
          | .ok style => .emit (.indexValue (nc.toNat - '0'.toNat) style) 2
          | .error e => .err e
      else if nc = '%' then .cont (lastVal ++ ['%']) 1
      else if nc = 'n' then .cont (lastVal ++ ['\n']) 1
      else if nc = 'N' then .cont (lastVal ++ ['\r']) 1
      else if nc = 't' then .cont (lastVal ++ ['\t']) 1
      else if nc = 'e' then .cont (lastVal ++ ['\x1b']) 1
      else if nc = 'x' then
        match rest' with
        | a :: b :: _ =>
          match addHexCore [a, b] 255 lastVal with
          | .ok lv => .cont lv 3
          | .error e => .err e
        | _ => .err .seqInEnd
      else if nc = 'u' then
        match rest' with
        | a :: b :: c2 :: d :: _ =>
          match addHexCore [a, b, c2, d] 65535 lastVal with
          | .ok lv => .cont lv 5
          | .error e => .err e
        | _ => .err .seqInEnd
      else if nc = 'U' then
        match rest' with
        | a :: b :: c2 :: d :: e2 :: f2 :: _ =>
          match addHexCore [a, b, c2, d, e2, f2] 4294967295 lastVal with
          | .ok lv => .cont lv 7
          | .error e => .err e
        | _ => .err .seqInEnd
      else
        match stylePat nc with
        | .ok style => .emit (.value style) 1
        | .error e => .err e
  else .cont (lastVal ++ [c]) 0

/-- The scanning loop of `Fmtter::build`: one character at a time, with
the instructions built so far (`args`) and the pending literal buffer
(`lastVal`); at end of input a non-empty buffer is flushed as a final
`Const`. -/
def buildAux (cs : List Char) (args : List FmtType) (lastVal : List Char) :
    Except BuildErr (List FmtType) :=
  match cs with
  | [] =>
    .ok (if lastVal.length != 0 then args ++ [.const (String.mk lastVal)]
         else args)
  | c :: rest =>
    match scanStep c rest lastVal with
    | .cont lv used => buildAux (rest.drop used) args lv
    | .emit v used => buildAux (rest.drop used) (addInstr args lastVal v) []
    | .err e => .error e
termination_by cs.length
decreasing_by
  all_goals simp [List.length_drop]; omega

/-- `Fmtter::build`: compile a template string. -/
def Fmtter.build (fmtter : String) : Except BuildErr Fmtter :=
  match buildAux fmtter.data [] [] with
  | .ok args => .ok ⟨args⟩
  | .error e => .error e

/-- Whether an instruction is a `Const` (literal) instruction. -/
def FmtType.isConst : FmtType → Bool
  | .const _ => true
  | _ => false

/-- No two adjacent instructions are both `Const` (the coalescing
invariant of `CompiledTemplate`). -/
def noAdjConst : List FmtType → Bool
  | [] => true
  | [_] => true
  | x :: y :: rest => (!(x.isConst && y.isConst)) && noAdjConst (y :: rest)

/-- No `Const` instruction carries empty text. -/
def noEmptyConst (l : List FmtType) : Bool :=
  l.all fun t =>
    match t with
    | .const s => s.length != 0
    | _ => true

/-- The final instruction, if any, is not a `Const`. Intermediate
states of the compiler loop satisfy this; the final flush may append
one trailing `Const`. -/
def lastNotConst : List FmtType → Bool
  | [] => true
  | [x] => !x.isConst
  | _ :: y :: rest => lastNotConst (y :: rest)

/-- Whether executing the instruction sequence from cursor `idx`
against `vs` ever reads a position `≥ vs.length` (the renderer's
out-of-range contract violation). -/
def hasOutOfRange (vs : List FmtValue) : List FmtType → Nat → Bool
  | [], _ => false
  | .const _ :: rest, idx => hasOutOfRange vs rest idx
  | .value _ :: rest, idx => vs.length ≤ idx || hasOutOfRange vs rest (idx + 1)
  | .indexValue id _ :: rest, idx => vs.length ≤ id || hasOutOfRange vs rest idx

end MiniFmt

namespace MainRs

open MiniFmt

/-- Inner loop of `format_out` (`main.rs`): render every row with one
template, pushing onto the accumulated line vector; a render panic
(out-of-bounds) aborts everything. -/
def formatRows (f : Fmtter) : List (List FmtValue) → List String →
    Option (List String)
  | [], acc => some acc
  | r :: rs, acc =>
    match f.fmtStr r with
    | some s => formatRows f rs (acc ++ [s])
    | none => none

/-- Outer loop of `format_out`: templates in order, rows inner. -/
def formatOutAux (rows : List (List FmtValue)) :
    List Fmtter → List String → Option (List String)
  | [], acc => some acc
  | f :: fs, acc =>
    match formatRows f rows acc with
    | some acc' => formatOutAux rows fs acc'
    | none => none

/-- `format_out` on the extracted row list: the nested
`for fmtter in fmtters { for item in strs { res_lines.push(...) } }`. -/
def format_out (fmtters : List Fmtter) (rows : List (List FmtValue)) :
    Option (List String) :=
  formatOutAux rows fmtters []

/-- `main`'s output loop `for line in msg { print!("{}", line) }`:
the rendered lines concatenated in order. -/
def mainOutput (fmtters : List Fmtter) (rows : List (List FmtValue)) :
    Option String :=
  (format_out fmtters rows).map String.join

/-- Sequence a list of possibly-panicking renders: the first panic
aborts everything, otherwise the results are kept in order. -/
def seqOpt : List (Option String) → Option (List String)
  | [] => some []
  | none :: _ => none
  | some s :: rest => (seqOpt rest).map (s :: ·)

/-- Modelled from the spec's ordering words: the renders listed in
template-major then row-minor order — all rows rendered with the first
template, then all rows with the second, and within one template the
rows in their original order. -/
def templateMajorRenders (fmtters : List Fmtter)
    (rows : List (List FmtValue)) : List (Option String) :=
  (fmtters.map fun f => rows.map f.fmtStr).flatten

end MainRs

open MiniFmt MainRs

theorem buildAux_nil (args : List FmtType) (lv : List Char) :
    buildAux [] args lv =
      .ok (if lv.length != 0 then args ++ [.const (String.mk lv)] else args) := by
  rw [buildAux]

theorem buildAux_literal_step {c : Char} (hc : c ≠ '%') (rest : List Char)
    (args : List FmtType) (lv : List Char) :
    buildAux (c :: rest) args lv = buildAux rest args (lv ++ [c]) := by
  rw [buildAux]
  simp [scanStep, hc]

theorem buildAux_literal_scan {cs : List Char} (h : ∀ c ∈ cs, c ≠ '%') :
    ∀ rest args lv, buildAux (cs ++ rest) args lv = buildAux rest args (lv ++ cs) := by
  induction cs with
  | nil => intro rest args lv; simp
  | cons c cs ih =>
    intro rest args lv
    have hc : c ≠ '%' := h c (List.mem_cons_self c cs)
    rw [List.cons_append, buildAux_literal_step hc,
      ih (fun d hd => h d (List.mem_cons_of_mem c hd))]
    simp

theorem str_empty_append (s : String) : "" ++ s = s := by
  cases s
  rfl

/-- C8: a template containing no percent character compiles successfully and renders
to the template text unchanged against every argument list. -/
theorem no_percent_identity (t : String) (h : '%' ∉ t.data) :
    ∃ f, Fmtter.build t = .ok f ∧ ∀ vs, f.fmtStr vs = some t := by
  obtain ⟨l⟩ := t
  simp only [String.data] at h
  have hscan := @buildAux_literal_scan l
    (fun c hc hceq => h (hceq ▸ hc)) [] [] []
  rw [List.append_nil, buildAux_nil] at hscan
  simp only [List.nil_append] at hscan
  by_cases hd : l = []
  · subst hd
    refine ⟨⟨[]⟩, ?_, ?_⟩
    · rw [Fmtter.build]
      simp only [String.data]
      rw [hscan]
      rfl
    · intro vs
      show fmtStrGo vs [] 0 "" = some ⟨[]⟩
      rfl
  · refine ⟨⟨[.const ⟨l⟩]⟩, ?_, ?_⟩
    · rw [Fmtter.build]
      simp only [String.data]
      rw [hscan]
      have hne : (l.length != 0) = true := by
        simpa using hd
      rw [if_pos hne]
    · intro vs
      show fmtStrGo vs [.const ⟨l⟩] 0 "" = some ⟨l⟩
      rw [fmtStrGo]
      simp [FmtType.fmtStr, fmtStrGo, str_empty_append]

theorem no_percent_identity_witness :
    ∃ f, Fmtter.build "ab" = .ok f ∧ ∀ vs, f.fmtStr vs = some "ab" :=
  no_percent_identity "ab" (by decide)

theorem buildAux_percent_end (args : List FmtType) (lv : List Char) :
    buildAux ['%'] args lv = .error .seqInEnd := by
  rw [buildAux]
  simp +decide [scanStep]

theorem buildAux_percent_x1 (args : List FmtType) (lv : List Char) :
    buildAux ['%', 'x', '1'] args lv = .error .seqInEnd := by
  rw [buildAux]
  simp +decide [scanStep]

/-- C4: a template ending right after a bare percent sign, and one ending inside the
fixed-length digit run of a hex escape, both fail compilation with the same
truncated-sequence error. -/
theorem truncated_sequence_errors :
    (∀ p : String, '%' ∉ p.data →
      Fmtter.build (p ++ "%") = .error .seqInEnd) ∧
    (∀ p : String, '%' ∉ p.data →
      Fmtter.build (p ++ "%x1") = .error .seqInEnd) := by
  constructor
  · intro p hp
    rw [Fmtter.build]
    have hd : (p ++ "%").data = p.data ++ ['%'] := by cases p; rfl
    rw [hd, buildAux_literal_scan (fun c hc hceq => hp (hceq ▸ hc)),
      buildAux_percent_end]
  · intro p hp
    rw [Fmtter.build]
    have hd : (p ++ "%x1").data = p.data ++ ['%', 'x', '1'] := by cases p; rfl
    rw [hd, buildAux_literal_scan (fun c hc hceq => hp (hceq ▸ hc)),
      buildAux_percent_x1]

theorem truncated_sequence_errors_witness :
    Fmtter.build "a%" = .error .seqInEnd ∧
    Fmtter.build "a%x1" = .error .seqInEnd := by
  constructor
  · have := truncated_sequence_errors.1 "a" (by decide)
    simpa using this
  · have := truncated_sequence_errors.2 "a" (by decide)
    simpa using this

/-- C7: the character escapes percent-percent, n, N, t and e append their character to
the pending literal buffer without emitting any instruction (no instruction boundary,
no argument consumed), and a compiled percent-percent renders as a single percent sign
regardless of the supplied values. -/
theorem char_escapes_no_boundary :
    (∀ rest args lv, buildAux ('%' :: '%' :: rest) args lv =
      buildAux rest args (lv ++ ['%'])) ∧
    (∀ rest args lv, buildAux ('%' :: 'n' :: rest) args lv =
      buildAux rest args (lv ++ ['\n'])) ∧
    (∀ rest args lv, buildAux ('%' :: 'N' :: rest) args lv =
      buildAux rest args (lv ++ ['\r'])) ∧
    (∀ rest args lv, buildAux ('%' :: 't' :: rest) args lv =
      buildAux rest args (lv ++ ['\t'])) ∧
    (∀ rest args lv, buildAux ('%' :: 'e' :: rest) args lv =
      buildAux rest args (lv ++ ['\x1b'])) ∧
    (Fmtter.build "%%" = .ok ⟨[.const "%"]⟩) ∧
    (∀ vs, Fmtter.fmtStr ⟨[.const "%"]⟩ vs = some "%") := by
  refine ⟨?_, ?_, ?_, ?_, ?_, ?_, ?_⟩
  · intro rest args lv; rw [buildAux]; simp +decide [scanStep]
  · intro rest args lv; rw [buildAux]; simp +decide [scanStep]
  · intro rest args lv; rw [buildAux]; simp +decide [scanStep]
  · intro rest args lv; rw [buildAux]; simp +decide [scanStep]
  · intro rest args lv; rw [buildAux]; simp +decide [scanStep]
  · simp +decide [Fmtter.build, buildAux, scanStep]
  · intro vs; rfl

/-- C1: the renderer keeps one cursor, initialized to 0 and shared across the whole
instruction sequence; a NextArg (`value`) instruction reads the value at the cursor,
appends its styled rendering and increments the cursor by exactly one, while an
IndexedArg (`indexValue`) instruction reads the value at its fixed index and leaves
the cursor unchanged; consequently the template with an indexed reference followed by
an auto-increment reference renders the first value twice. -/
theorem render_cursor_coupling :
    (∀ f : Fmtter, ∀ vs, f.fmtStr vs = fmtStrGo vs f.args 0 "") ∧
    (∀ vs instrs idx acc style v, vs[idx]? = some v →
      fmtStrGo vs (.value style :: instrs) idx acc =
        fmtStrGo vs instrs (idx + 1) (acc ++ style.fmtStr v)) ∧
    (∀ vs instrs idx acc id style v, vs[id]? = some v →
      fmtStrGo vs (.indexValue id style :: instrs) idx acc =
        fmtStrGo vs instrs idx (acc ++ style.fmtStr v)) ∧
    (Fmtter.build "%0s,%s" =
      .ok ⟨[.indexValue 0 .str, .const ",", .value .str]⟩) ∧
    (∀ dbg1 dbg2 edbg1 edbg2 : String,
      Fmtter.fmtStr ⟨[.indexValue 0 .str, .const ",", .value .str]⟩
        [⟨"a", dbg1, edbg1⟩, ⟨"b", dbg2, edbg2⟩] = some "a,a") := by
  refine ⟨?_, ?_, ?_, ?_, ?_⟩
  · intro f vs; rfl
  · intro vs instrs idx acc style v h
    rw [fmtStrGo]
    simp [FmtType.fmtStr, h]
  · intro vs instrs idx acc id style v h
    rw [fmtStrGo]
    simp [FmtType.fmtStr, h]
  · simp +decide [Fmtter.build, buildAux, scanStep, addInstr, stylePat]
  · intro dbg1 dbg2 edbg1 edbg2; rfl

theorem render_cursor_coupling_witness :
    fmtStrGo [⟨"x", "q", "p"⟩] [.value .str] 0 "" =
      fmtStrGo [⟨"x", "q", "p"⟩] [] 1
        ("" ++ FmtStyle.str.fmtStr ⟨"x", "q", "p"⟩) ∧
    fmtStrGo [⟨"x", "q", "p"⟩] [.indexValue 0 .repr] 7 "" =
      fmtStrGo [⟨"x", "q", "p"⟩] [] 7
        ("" ++ FmtStyle.repr.fmtStr ⟨"x", "q", "p"⟩) :=
  ⟨render_cursor_coupling.2.1 _ _ _ _ _ _ rfl,
   render_cursor_coupling.2.2.1 _ _ _ _ _ _ _ rfl⟩

/-- C3: when the fixed-length digit run of a hex escape parses as hexadecimal but the
decoded value is not a valid code point (beyond the maximum or in the surrogate
range), compilation fails with the invalid-code-point error naming that value; the
maximum code point compiles and renders, one past it fails. -/
theorem hex_invalid_code_point :
    (∀ cs max lv val, fromStrRadix16 cs max = some val →
      isValidCodePoint val = false →
      addHexCore cs max lv = .error (.toCharFailed val)) ∧
    (Fmtter.build "%U10ffff" =
      .ok ⟨[.const (String.mk [Char.ofNat 1114111])]⟩) ∧
    ((Fmtter.build "%U10ffff").map (fun f => f.fmtStr []) =
      .ok (some (String.mk [Char.ofNat 1114111]))) ∧
    (Fmtter.build "%U110000" = .error (.toCharFailed 1114112)) := by
  refine ⟨?_, ?_, ?_, ?_⟩
  · intro cs max lv val h1 h2
    simp [addHexCore, h1, charFromU32, h2]
  · simp +decide [Fmtter.build, buildAux, scanStep, addHexCore, fromStrRadix16,
      parseHexDigits, hexDigitVal, charFromU32, isValidCodePoint]
  · have hb : Fmtter.build "%U10ffff" =
        .ok ⟨[.const (String.mk [Char.ofNat 1114111])]⟩ := by
      simp +decide [Fmtter.build, buildAux, scanStep, addHexCore, fromStrRadix16,
        parseHexDigits, hexDigitVal, charFromU32, isValidCodePoint]
    rw [hb]
    rfl
  · simp +decide [Fmtter.build, buildAux, scanStep, addHexCore, fromStrRadix16,
      parseHexDigits, hexDigitVal, charFromU32, isValidCodePoint]

theorem hex_invalid_code_point_witness :
    addHexCore ['1', '1', '0', '0', '0', '0'] 4294967295 [] =
      .error (.toCharFailed 1114112) :=
  hex_invalid_code_point.1 ['1', '1', '0', '0', '0', '0'] 4294967295 [] 1114112
    (by decide) (by decide)

theorem parseHexDigits_le (max : Nat) (cs : List Char) :
    ∀ acc val, acc ≤ max → parseHexDigits max cs acc = some val → val ≤ max := by
  induction cs with
  | nil =>
    intro acc val h hp
    rw [parseHexDigits] at hp
    cases hp
    exact h
  | cons c cs ih =>
    intro acc val h hp
    rw [parseHexDigits] at hp
    cases hhex : hexDigitVal c with
    | none => rw [hhex] at hp; cases hp
    | some d =>
      simp only [hhex] at hp
      by_cases hle : acc * 16 + d ≤ max
      · rw [if_pos hle] at hp
        exact ih _ _ hle hp
      · rw [if_neg hle] at hp
        cases hp

theorem fromStrRadix16_le {cs : List Char} {max val : Nat}
    (h : fromStrRadix16 cs max = some val) : val ≤ max := by
  unfold fromStrRadix16 at h
  split at h
  · cases h
  · split at h
    · cases h
    · exact parseHexDigits_le max _ 0 val (Nat.zero_le _) h
  · exact parseHexDigits_le max _ 0 val (Nat.zero_le _) h

/-- C10: the invalid-code-point branch is unreachable for the two-digit x escape:
its hex-decoding step either succeeds (every value parsed against the u8 maximum 255
is a valid code point) or fails with the build-hex error, never with the
to-char-failed error. -/
theorem hex_x_code_point_unreachable :
    (∀ cs lv, (∃ lv', addHexCore cs 255 lv = .ok lv') ∨
      addHexCore cs 255 lv = .error (.buildHexError (String.mk cs))) ∧
    (∀ val : Fin 256, isValidCodePoint val.val = true) := by
  constructor
  · intro cs lv
    cases hp : fromStrRadix16 cs 255 with
    | none =>
      right
      simp [addHexCore, hp]
    | some val =>
      left
      have hle := fromStrRadix16_le hp
      have hv : isValidCodePoint val = true := by
        simp only [isValidCodePoint, Bool.or_eq_true, decide_eq_true_eq]
        left
        omega
      exact ⟨lv ++ [Char.ofNat val], by simp [addHexCore, hp, charFromU32, hv]⟩
  · intro val
    obtain ⟨v, hv⟩ := val
    simp only [isValidCodePoint, Bool.or_eq_true, decide_eq_true_eq]
    left
    omega

theorem fmtStrGo_none_iff (vs : List FmtValue) (instrs : List FmtType) :
    ∀ idx acc, (fmtStrGo vs instrs idx acc = none ↔
      hasOutOfRange vs instrs idx = true) := by
  induction instrs with
  | nil => intro idx acc; simp [fmtStrGo, hasOutOfRange]
  | cons i rest ih =>
    intro idx acc
    cases i with
    | const s =>
      rw [fmtStrGo, hasOutOfRange]
      simp only [FmtType.fmtStr]
      exact ih idx (acc ++ s)
    | value style =>
      rw [fmtStrGo, hasOutOfRange]
      cases hv : vs[idx]? with
      | none =>
        have hlen : vs.length ≤ idx := by
          simpa using hv
        simp [FmtType.fmtStr, hv, hlen]
      | some v =>
        have hlen : ¬ vs.length ≤ idx := by
          obtain ⟨hlt, -⟩ := List.getElem?_eq_some.mp hv
          omega
        simp [FmtType.fmtStr, hv, hlen, ih]
    | indexValue id style =>
      rw [fmtStrGo, hasOutOfRange]
      cases hv : vs[id]? with
      | none =>
        have hlen : vs.length ≤ id := by
          simpa using hv
        simp [FmtType.fmtStr, hv, hlen]
      | some v =>
        have hlen : ¬ vs.length ≤ id := by
          obtain ⟨hlt, -⟩ := List.getElem?_eq_some.mp hv
          omega
        simp [FmtType.fmtStr, hv, hlen, ih]

/-- C5: rendering returns no output (the Rust code panics, modelled as `none`) exactly
when executing the instruction sequence from cursor 0 reads a position at or beyond
the length of the argument list; when it produces output, no out-of-range access
occurred, so missing values are never silently replaced by empty text. -/
theorem render_out_of_range_fails (f : Fmtter) (vs : List FmtValue) :
    (f.fmtStr vs = none ↔ hasOutOfRange vs f.args 0 = true) ∧
    (∀ s, f.fmtStr vs = some s → hasOutOfRange vs f.args 0 = false) := by
  have hiff := fmtStrGo_none_iff vs f.args 0 ""
  constructor
  · exact hiff
  · intro s hs
    by_contra hoob
    have : hasOutOfRange vs f.args 0 = true := by
      cases hx : hasOutOfRange vs f.args 0
      · exact absurd hx hoob
      · rfl
    have hnone := hiff.mpr this
    have hs2 : fmtStrGo vs f.args 0 "" = some s := hs
    rw [hs2] at hnone
    cases hnone

theorem render_out_of_range_fails_witness :
    hasOutOfRange [⟨"x", "q", "p"⟩] (Fmtter.args ⟨[.value .str]⟩) 0 = false :=
  (render_out_of_range_fails ⟨[.value .str]⟩ [⟨"x", "q", "p"⟩]).2 "x" rfl

/-- C6: the x, u and U escapes consume exactly 2, 4 and 6 following characters, taken
verbatim and fed to the radix-16 parse (which accepts both letter cases); a run that
fails the parse is the build-hex error naming the malformed string; the two-digit
escape round-trips to the single character 0x1B, and an uppercase digit to 0x1C. -/
theorem hex_fixed_width_round_trip :
    (∀ a b rest args lv, buildAux ('%' :: 'x' :: a :: b :: rest) args lv =
      match addHexCore [a, b] 255 lv with
      | .ok lv' => buildAux rest args lv'
      | .error e => .error e) ∧
    (∀ a b c d rest args lv,
      buildAux ('%' :: 'u' :: a :: b :: c :: d :: rest) args lv =
        match addHexCore [a, b, c, d] 65535 lv with
        | .ok lv' => buildAux rest args lv'
        | .error e => .error e) ∧
    (∀ a b c d e2 f2 rest args lv,
      buildAux ('%' :: 'U' :: a :: b :: c :: d :: e2 :: f2 :: rest) args lv =
        match addHexCore [a, b, c, d, e2, f2] 4294967295 lv with
        | .ok lv' => buildAux rest args lv'
        | .error e => .error e) ∧
    (∀ cs max lv, fromStrRadix16 cs max = none →
      addHexCore cs max lv = .error (.buildHexError (String.mk cs))) ∧
    ((Fmtter.build "%x1b").map (fun f => f.fmtStr []) = .ok (some "\x1b")) ∧
    ((Fmtter.build "%x1C").map (fun f => f.fmtStr []) = .ok (some "\x1c")) := by
  refine ⟨?_, ?_, ?_, ?_, ?_, ?_⟩
  · intro a b rest args lv
    rw [buildAux]
    simp only [scanStep]
    norm_num
    cases addHexCore [a, b] 255 lv <;> simp
  · intro a b c d rest args lv
    rw [buildAux]
    simp only [scanStep]
    norm_num
    cases addHexCore [a, b, c, d] 65535 lv <;> simp
  · intro a b c d e2 f2 rest args lv
    rw [buildAux]
    simp only [scanStep]
    norm_num
    cases addHexCore [a, b, c, d, e2, f2] 4294967295 lv <;> simp
  · intro cs max lv h
    simp [addHexCore, h]
  · have hb : Fmtter.build "%x1b" = .ok ⟨[.const "\x1b"]⟩ := by
      simp +decide [Fmtter.build, buildAux, scanStep, addHexCore, fromStrRadix16,
        parseHexDigits, hexDigitVal, charFromU32, isValidCodePoint]
    rw [hb]
    rfl
  · have hb : Fmtter.build "%x1C" = .ok ⟨[.const "\x1c"]⟩ := by
      simp +decide [Fmtter.build, buildAux, scanStep, addHexCore, fromStrRadix16,
        parseHexDigits, hexDigitVal, charFromU32, isValidCodePoint]
    rw [hb]
    rfl

theorem hex_fixed_width_round_trip_witness :
    addHexCore ['g', '1'] 255 [] =
      .error (.buildHexError (String.mk ['g', '1'])) :=
  hex_fixed_width_round_trip.2.2.2.1 ['g', '1'] 255 [] (by decide)

theorem noAdjConst_cons_cons (x y : FmtType) (r : List FmtType) :
    noAdjConst (x :: y :: r) = ((!(x.isConst && y.isConst)) && noAdjConst (y :: r)) := by
  rw [noAdjConst]

theorem lastNotConst_cons_cons (x y : FmtType) (r : List FmtType) :
    lastNotConst (x :: y :: r) = lastNotConst (y :: r) := by
  rw [lastNotConst]

theorem noEmptyConst_append (l1 l2 : List FmtType) :
    noEmptyConst (l1 ++ l2) = (noEmptyConst l1 && noEmptyConst l2) := by
  simp [noEmptyConst, List.all_append]

theorem lastNotConst_append (l : List FmtType) (y : FmtType) (r : List FmtType) :
    lastNotConst (l ++ y :: r) = lastNotConst (y :: r) := by
  induction l with
  | nil => rfl
  | cons a l ih =>
    cases l with
    | nil => rfl
    | cons b l' => exact ih

theorem noAdjConst_append_single (x : FmtType) :
    ∀ l : List FmtType, noAdjConst l = true → lastNotConst l = true →
      noAdjConst (l ++ [x]) = true := by
  intro l
  induction l with
  | nil => intro _ _; rfl
  | cons a l ih =>
    intro h1 h2
    cases l with
    | nil =>
      rw [lastNotConst] at h2
      show noAdjConst (a :: x :: []) = true
      rw [noAdjConst_cons_cons]
      simp_all [noAdjConst]
    | cons b l' =>
      simp only [List.cons_append] at h1 h2 ⊢
      rw [noAdjConst_cons_cons] at h1
      rw [lastNotConst_cons_cons] at h2
      rw [noAdjConst_cons_cons]
      rw [Bool.and_eq_true] at h1 ⊢
      exact ⟨h1.1, ih h1.2 h2⟩

theorem noAdjConst_append_pair (x y : FmtType) (hy : y.isConst = false) :
    ∀ l : List FmtType, noAdjConst l = true → lastNotConst l = true →
      noAdjConst (l ++ [x, y]) = true := by
  intro l
  induction l with
  | nil =>
    intro _ _
    show noAdjConst (x :: y :: []) = true
    rw [noAdjConst_cons_cons]
    simp [hy, noAdjConst]
  | cons a l ih =>
    intro h1 h2
    cases l with
    | nil =>
      rw [lastNotConst] at h2
      show noAdjConst (a :: x :: y :: []) = true
      rw [noAdjConst_cons_cons, noAdjConst_cons_cons]
      simp_all [noAdjConst, hy]
    | cons b l' =>
      simp only [List.cons_append] at h1 h2 ⊢
      rw [noAdjConst_cons_cons] at h1
      rw [lastNotConst_cons_cons] at h2
      rw [noAdjConst_cons_cons]
      rw [Bool.and_eq_true] at h1 ⊢
      exact ⟨h1.1, ih h1.2 h2⟩

theorem lastNotConst_append_pair (x y : FmtType) (hy : y.isConst = false)
    (l : List FmtType) : lastNotConst (l ++ [x, y]) = true := by
  rw [show (l ++ [x, y]) = l ++ x :: [y] from rfl, lastNotConst_append,
    lastNotConst_cons_cons, lastNotConst]
  simp [hy]

theorem inv_addInstr (args : List FmtType) (lv : List Char) (v : FmtType)
    (hv : v.isConst = false)
    (h1 : noAdjConst args = true) (h2 : noEmptyConst args = true)
    (h3 : lastNotConst args = true) :
    noAdjConst (addInstr args lv v) = true ∧
    noEmptyConst (addInstr args lv v) = true ∧
    lastNotConst (addInstr args lv v) = true := by
  rw [addInstr]
  by_cases hl : (lv.length != 0) = true
  · rw [if_pos hl]
    refine ⟨noAdjConst_append_pair _ _ hv args h1 h3, ?_, ?_⟩
    · rw [noEmptyConst_append, Bool.and_eq_true]
      refine ⟨h2, ?_⟩
      have hmk : ((String.mk lv).length != 0) = true := hl
      cases v <;> simp_all [noEmptyConst, FmtType.isConst]
    · exact lastNotConst_append_pair _ _ hv args
  · rw [if_neg hl]
    refine ⟨noAdjConst_append_single v args h1 h3, ?_, ?_⟩
    · rw [noEmptyConst_append, Bool.and_eq_true]
      exact ⟨h2, by cases v <;> simp_all [noEmptyConst, FmtType.isConst]⟩
    · rw [show (args ++ [v]) = args ++ v :: [] from rfl, lastNotConst_append,
        lastNotConst]
      simp [hv]

theorem scanStep_emit_isConst {c : Char} {rest lv : List Char} {v : FmtType}
    {used : Nat} (h : scanStep c rest lv = .emit v used) :
    v.isConst = false := by
  unfold scanStep at h
  repeat' split at h
  all_goals first
  | (cases h; rfl)
  | cases h

theorem buildAux_inv (cs : List Char) (args : List FmtType) (lv : List Char) :
    noAdjConst args = true → noEmptyConst args = true →
    lastNotConst args = true →
    ∀ res, buildAux cs args lv = .ok res →
      noAdjConst res = true ∧ noEmptyConst res = true := by
  induction cs, args, lv using buildAux.induct with
  | case1 args lv =>
    intro h1 h2 h3 res hres
    rw [buildAux] at hres
    by_cases hl : (lv.length != 0) = true
    · rw [if_pos hl] at hres
      cases hres
      constructor
      · exact noAdjConst_append_single _ args h1 h3
      · rw [noEmptyConst_append, Bool.and_eq_true]
        have hmk : ((String.mk lv).length != 0) = true := hl
        exact ⟨h2, by simp_all [noEmptyConst]⟩
    · rw [if_neg hl] at hres
      cases hres
      exact ⟨h1, h2⟩
  | case2 args lv sc tail lv2 used hstep ih =>
    intro h1 h2 h3 res hres
    rw [buildAux] at hres
    simp only [hstep] at hres
    exact ih h1 h2 h3 res hres
  | case3 args lv sc tail v used hstep ih =>
    intro h1 h2 h3 res hres
    rw [buildAux] at hres
    simp only [hstep] at hres
    have hv := scanStep_emit_isConst hstep
    obtain ⟨g1, g2, g3⟩ := inv_addInstr args lv v hv h1 h2 h3
    exact ih g1 g2 g3 res hres
  | case4 args lv sc tail e hstep =>
    intro h1 h2 h3 res hres
    rw [buildAux] at hres
    simp only [hstep] at hres
    cases hres

/-- C2: every successfully compiled template satisfies the coalescing invariant: its
instruction sequence never contains two adjacent literal (`const`) instructions and
never contains an empty literal instruction. -/
theorem build_literal_coalescing (s : String) (f : Fmtter)
    (h : Fmtter.build s = .ok f) :
    noAdjConst f.args = true ∧ noEmptyConst f.args = true := by
  rw [Fmtter.build] at h
  cases hb : buildAux s.data [] [] with
  | ok res =>
    rw [hb] at h
    cases h
    exact buildAux_inv s.data [] [] rfl rfl rfl res hb
  | error e =>
    rw [hb] at h
    cases h

theorem build_literal_coalescing_witness :
    noAdjConst (Fmtter.args ⟨[.const "a", .value .str, .const "b"]⟩) = true ∧
    noEmptyConst (Fmtter.args ⟨[.const "a", .value .str, .const "b"]⟩) = true :=
  build_literal_coalescing "a%sb" ⟨[.const "a", .value .str, .const "b"]⟩
    (by simp +decide [Fmtter.build, buildAux, scanStep, addInstr, stylePat])

theorem seqOpt_append (l1 l2 : List (Option String)) :
    seqOpt (l1 ++ l2) =
      (seqOpt l1).bind (fun a => (seqOpt l2).map (a ++ ·)) := by
  induction l1 with
  | nil =>
    rw [List.nil_append, seqOpt]
    cases seqOpt l2 <;> simp
  | cons o l1 ih =>
    cases o with
    | none =>
      rw [List.cons_append, seqOpt, seqOpt]
      rfl
    | some s =>
      rw [List.cons_append, seqOpt, seqOpt, ih]
      cases seqOpt l1 <;> cases seqOpt l2 <;> simp

theorem formatRows_eq (f : Fmtter) :
    ∀ (rs : List (List FmtValue)) (acc : List String),
      formatRows f rs acc = (seqOpt (rs.map f.fmtStr)).map (acc ++ ·) := by
  intro rs
  induction rs with
  | nil => intro acc; simp [formatRows, seqOpt]
  | cons r rs ih =>
    intro acc
    rw [formatRows]
    cases hr : f.fmtStr r with
    | none => simp [List.map_cons, seqOpt, hr]
    | some s =>
      simp only [hr]
      rw [ih]
      simp only [List.map_cons, hr, seqOpt]
      cases seqOpt (rs.map f.fmtStr) <;> simp

theorem formatOutAux_eq (rows : List (List FmtValue)) :
    ∀ (fs : List Fmtter) (acc : List String),
      formatOutAux rows fs acc =
        (seqOpt (templateMajorRenders fs rows)).map (acc ++ ·) := by
  intro fs
  induction fs with
  | nil => intro acc; simp [formatOutAux, templateMajorRenders, seqOpt]
  | cons f fs ih =>
    intro acc
    rw [formatOutAux]
    rw [formatRows_eq f rows acc]
    cases hr : seqOpt (rows.map f.fmtStr) with
    | none =>
      simp only [Option.map_none']
      simp [templateMajorRenders, seqOpt_append, hr]
    | some l =>
      simp only [Option.map_some']
      rw [ih]
      simp [templateMajorRenders, seqOpt_append, hr]
      cases seqOpt (fs.map fun f => rows.map f.fmtStr).flatten <;>
        simp [List.append_assoc]

/-- C9: `format_out` produces exactly the renders listed in template-major then
row-minor order (all rows under the first template before any under the second, rows
in original order within one template, the first render panic aborting everything),
and the program output is the concatenation of those strings in that order. -/
theorem format_out_template_major :
    (∀ fmtters rows, format_out fmtters rows =
      seqOpt (templateMajorRenders fmtters rows)) ∧
    (∀ fmtters rows, mainOutput fmtters rows =
      (seqOpt (templateMajorRenders fmtters rows)).map String.join) := by
  constructor
  · intro fs rows
    rw [format_out, formatOutAux_eq]
    cases seqOpt (templateMajorRenders fs rows) <;> simp
  · intro fs rows
    rw [mainOutput, format_out, formatOutAux_eq]
    cases seqOpt (templateMajorRenders fs rows) <;> simp
